import Mathlib

/-!
Verification of the Notefy YIN pitch-detection core
(src/android/app/src/main/cpp/notefy.cpp).

The C source keeps its state in process-wide globals (gate counters, gate
flag, last valid pitch, mode, frequency range, noise threshold).  The
embedding gathers those globals into an explicit `DetectorState` record and
threads it through each operation.  `float` arithmetic is modelled exactly
over `ℚ`.  The one non-rational operation, `sqrtf` inside `calculate_rms`,
is only ever used in the comparison `rms > threshold`; the embedding carries
the squared RMS and decides `sqrt x > t` exactly via `sqrt_gt` below, which
agrees with the C comparison for the nonnegative radicands that occur.
-/

set_option maxRecDepth 1000000

namespace Notefy

/-- The process-wide globals of notefy.cpp, gathered into one record. -/
structure DetectorState where
  gateOpenCounter : ℕ
  gateCloseCounter : ℕ
  gateIsOpen : Bool
  /-- last detected pitch; -1.0 is the "none" sentinel used by the C code. -/
  lastValidPitch : ℚ
  currentMode : ℤ
  minFrequency : ℚ
  maxFrequency : ℚ
  noiseThreshold : ℚ
  deriving DecidableEq, Repr

/-- Initial values of the globals (file-scope initializers in notefy.cpp). -/
def initialState : DetectorState :=
  { gateOpenCounter := 0
    gateCloseCounter := 0
    gateIsOpen := false
    lastValidPitch := -1
    currentMode := 0
    minFrequency := 25
    maxFrequency := 4500
    noiseThreshold := 1/125 }

/-- C's `(int)` cast on a float value: truncation toward zero. -/
def truncToInt (q : ℚ) : ℤ := if q < 0 then ⌈q⌉ else ⌊q⌋

/-- Decides `sqrt x > t` for a nonnegative radicand `x`, exactly as the
float comparison `sqrtf(x) > t` behaves in the source (`sqrt x ≥ 0`, so the
comparison holds iff `t < 0` or `t * t < x`). -/
def sqrt_gt (x t : ℚ) : Bool := decide (t < 0) || decide (t * t < x)

/-- `set_tuning_mode` from notefy.cpp: stores the mode, picks the noise
threshold from the per-mode table (guitar 0.010, piano 0.006, chromatic and
any other value 0.008), and resets the gate state. -/
def set_tuning_mode (s : DetectorState) (mode : ℤ) : DetectorState :=
  { s with
    currentMode := mode
    noiseThreshold := if mode = 1 then 1/100 else if mode = 2 then 3/500 else 1/125
    gateOpenCounter := 0
    gateCloseCounter := 0
    gateIsOpen := false
    lastValidPitch := -1 }

/-- `set_frequency_range` from notefy.cpp: accepted only when
`0 < minFreq < maxFreq`, otherwise a silent no-op. -/
def set_frequency_range (s : DetectorState) (minFreq maxFreq : ℚ) : DetectorState :=
  if 0 < minFreq ∧ minFreq < maxFreq then
    { s with minFrequency := minFreq, maxFrequency := maxFreq }
  else s

/-- `reset_frequency_range` from notefy.cpp: restore the defaults. -/
def reset_frequency_range (s : DetectorState) : DetectorState :=
  { s with minFrequency := 25, maxFrequency := 4500 }

/-- `set_noise_threshold` from notefy.cpp: accepted only when
`0 < threshold < 1`, otherwise a silent no-op. -/
def set_noise_threshold (s : DetectorState) (threshold : ℚ) : DetectorState :=
  if 0 < threshold ∧ threshold < 1 then
    { s with noiseThreshold := threshold }
  else s

/-- `calculate_rms` squared: `sum(buffer[i]^2) / length`.  The C function
returns the square root of this; the callers only compare it against the
noise threshold, which `sqrt_gt` decides exactly. -/
def calculate_rms_sq (buffer : List ℚ) (length : ℕ) : ℚ :=
  ((List.range length).map (fun i => buffer.getD i 0 * buffer.getD i 0)).sum / length

/-- `calculate_peak` from notefy.cpp: maximum absolute sample, starting at 0. -/
def calculate_peak (buffer : List ℚ) (length : ℕ) : ℚ :=
  ((List.range length).map (fun i => |buffer.getD i 0|)).foldl max 0

/-- The gate's qualifying condition for one frame, exactly the C code's
`signal_present`: RMS above threshold and peak above twice the threshold
(the RMS comparison carried on the squared RMS via `sqrt_gt`). -/
def qualifies (s : DetectorState) (rmsSq peak : ℚ) : Prop :=
  sqrt_gt rmsSq s.noiseThreshold = true ∧ s.noiseThreshold * 2 < peak

instance (s : DetectorState) (rmsSq peak : ℚ) : Decidable (qualifies s rmsSq peak) :=
  inferInstanceAs (Decidable (_ ∧ _))

/-- `noise_gate_check` from notefy.cpp: hysteresis update of the gate state.
Returns the (new) gate flag together with the updated state. -/
def noise_gate_check (s : DetectorState) (rmsSq peak : ℚ) : Bool × DetectorState :=
  if qualifies s rmsSq peak then
    let s1 := { s with gateCloseCounter := 0, gateOpenCounter := s.gateOpenCounter + 1 }
    let s2 := if 2 ≤ s1.gateOpenCounter then { s1 with gateIsOpen := true } else s1
    (s2.gateIsOpen, s2)
  else
    let s1 := { s with gateOpenCounter := 0, gateCloseCounter := s.gateCloseCounter + 1 }
    let s2 :=
      if 5 ≤ s1.gateCloseCounter then
        { s1 with gateIsOpen := false, lastValidPitch := -1 }
      else s1
    (s2.gateIsOpen, s2)

/-- Step 1, `yin_difference` from notefy.cpp: for each lag `tau` in
`[1, halfLen)` the squared-difference sum over `i ∈ [0, halfLen)`;
entry 0 stays at the `memset` value 0.  The result has length
`bufferLength / 2`, exactly the prefix of the scratch buffer the C code
writes. -/
def yin_difference (buffer : List ℚ) (bufferLength : ℕ) : List ℚ :=
  (List.range (bufferLength / 2)).map (fun tau =>
    if tau = 0 then 0
    else
      ((List.range (bufferLength / 2)).map (fun i =>
        (buffer.getD i 0 - buffer.getD (i + tau) 0) *
          (buffer.getD i 0 - buffer.getD (i + tau) 0))).sum)

/-- Loop body of step 2 (`yin_cumulative_mean_normalized_difference`):
processes the entries at indices `tau, tau+1, ...` given the running sum
accumulated so far. -/
def cmndLoop : List ℚ → ℚ → ℕ → List ℚ
  | [], _, _ => []
  | x :: xs, runningSum, tau =>
    let s := runningSum + x
    (if 0 < s then x * tau / s else 1) :: cmndLoop xs s (tau + 1)

/-- Step 2, `yin_cumulative_mean_normalized_difference` from notefy.cpp:
entry 0 is set to 1; entry `tau ≥ 1` becomes `raw * tau / runningSum` when
the running sum of raw entries `1..tau` is positive, else 1.  The C
function receives the buffer length and touches indices
`[0, bufferLength/2)`; every call site passes a buffer of exactly that
length, so the embedding processes the whole list. -/
def yin_cumulative_mean_normalized_difference (yinBuffer : List ℚ) : List ℚ :=
  match yinBuffer with
  | [] => []
  | _ :: rest => 1 :: cmndLoop rest 0 1

/-- Inner `while` of step 3: starting at `tau`, walk forward while the next
curve value is strictly smaller, taking at most `n` steps.  The wrapper
`walkForward` supplies `n = maxTau - tau - 1`, which makes the step budget
coincide with the C bound `tau + 1 < maxTau`. -/
def walkForwardAux (curve : List ℚ) : ℕ → ℕ → ℕ
  | 0, tau => tau
  | n + 1, tau =>
    if curve.getD (tau + 1) 0 < curve.getD tau 0 then walkForwardAux curve n (tau + 1)
    else tau

/-- The C inner `while (tau + 1 < maxTau && curve[tau+1] < curve[tau]) tau++`. -/
def walkForward (curve : List ℚ) (maxTau tau : ℕ) : ℕ :=
  walkForwardAux curve (maxTau - tau - 1) tau

/-- Outer `for` of step 3: scan `tau` upward with `maxTau - tau` iterations
remaining; at the first value below the YIN threshold 0.10 walk forward to
the local minimum and stop. -/
def scanDipAux (curve : List ℚ) (maxTau : ℕ) : ℕ → ℕ → Option ℕ
  | 0, _ => none
  | n + 1, tau =>
    if curve.getD tau 0 < 1/10 then some (walkForward curve maxTau tau)
    else scanDipAux curve maxTau n (tau + 1)

/-- The C `for (tau = minTau; tau < maxTau; tau++)` search loop of step 3. -/
def scanDip (curve : List ℚ) (maxTau tau : ℕ) : Option ℕ :=
  scanDipAux curve maxTau (maxTau - tau) tau

/-- Step 3, `yin_absolute_threshold` from notefy.cpp: clamp the lag window
to `[max 2 (int)(rate/maxFreq), min (halfLen-1) (int)(rate/minFreq))`, scan
for the first dip below 0.10, walk to its local minimum, and accept it if
its value still beats the initial `bestValue = 0.10`.  Returns the
candidate (`none` for the C sentinel -1) and the confidence the C function
writes through its out-parameter. -/
def yin_absolute_threshold (yinBuffer : List ℚ) (bufferLength sampleRate : ℕ)
    (minFrequency maxFrequency : ℚ) : Option ℕ × ℚ :=
  let halfLen := bufferLength / 2
  let minTau : ℕ := max 2 (truncToInt ((sampleRate : ℚ) / maxFrequency)).toNat
  let maxTau : ℕ := min (halfLen - 1) (truncToInt ((sampleRate : ℚ) / minFrequency)).toNat
  match scanDip yinBuffer maxTau minTau with
  | none => (none, 0)
  | some tau =>
      if yinBuffer.getD tau 0 < 1/10 then (some tau, 1 - yinBuffer.getD tau 0)
      else (none, 0)

/-- Step 4, `yin_parabolic_interpolation` from notefy.cpp: refine an
integer lag by a parabolic fit through its neighbors, with the adjustment
clamped to `[-1, 1]` and guarded against a near-zero denominator. -/
def yin_parabolic_interpolation (yinBuffer : List ℚ) (tau : ℕ) (bufferLength : ℕ) : ℚ :=
  let halfLen := bufferLength / 2
  if tau < 1 ∨ halfLen - 1 ≤ tau then (tau : ℚ)
  else
    let s0 := yinBuffer.getD (tau - 1) 0
    let s1 := yinBuffer.getD tau 0
    let s2 := yinBuffer.getD (tau + 1) 0
    let denominator := 2 * (2 * s1 - s2 - s0)
    if |denominator| < 1/1000000000 then (tau : ℚ)
    else
      let adjustment := (s2 - s0) / denominator
      let adjustment :=
        if adjustment < -1 then -1 else if 1 < adjustment then 1 else adjustment
      (tau : ℚ) + adjustment

/-- Result of `detect_pitch`: the returned pitch (-1 = "no pitch") and the
final global state. -/
structure DetectResult where
  pitch : ℚ
  state : DetectorState
  deriving DecidableEq, Repr

/-- Result of `detect_pitch_with_confidence`: additionally the confidence
value written through `outConfidence` (when that pointer is non-null). -/
structure DetectConfResult where
  pitch : ℚ
  confidence : ℚ
  state : DetectorState
  deriving DecidableEq, Repr

/-- `detect_pitch` from notefy.cpp.  The frame is `none` for a null
pointer.  Scratch-buffer allocation (`ensure_yin_buffer`) is assumed to
succeed, as in every run where memory is available. -/
def detect_pitch (s : DetectorState) (audioData : Option (List ℚ)) (sampleRate : ℕ) :
    DetectResult :=
  match audioData with
  | none => ⟨-1, s⟩
  | some buf =>
    if buf.length < 64 then ⟨-1, s⟩
    else
      let g := noise_gate_check s (calculate_rms_sq buf buf.length) (calculate_peak buf buf.length)
      if g.1 = true then
        let yinBuffer := yin_cumulative_mean_normalized_difference (yin_difference buf buf.length)
        match (yin_absolute_threshold yinBuffer buf.length sampleRate
                g.2.minFrequency g.2.maxFrequency).1 with
        | none => ⟨-1, g.2⟩
        | some tau =>
          let betterTau := yin_parabolic_interpolation yinBuffer tau buf.length
          let pitchHz := (sampleRate : ℚ) / betterTau
          if pitchHz < g.2.minFrequency ∨ g.2.maxFrequency < pitchHz then ⟨-1, g.2⟩
          else ⟨pitchHz, { g.2 with lastValidPitch := pitchHz }⟩
      else ⟨-1, g.2⟩

/-- `detect_pitch_with_confidence` from notefy.cpp: same pipeline, with the
confidence initialized to 0 and overwritten only on full success. -/
def detect_pitch_with_confidence (s : DetectorState) (audioData : Option (List ℚ))
    (sampleRate : ℕ) : DetectConfResult :=
  match audioData with
  | none => ⟨-1, 0, s⟩
  | some buf =>
    if buf.length < 64 then ⟨-1, 0, s⟩
    else
      let g := noise_gate_check s (calculate_rms_sq buf buf.length) (calculate_peak buf buf.length)
      if g.1 = true then
        let yinBuffer := yin_cumulative_mean_normalized_difference (yin_difference buf buf.length)
        let res := yin_absolute_threshold yinBuffer buf.length sampleRate
                     g.2.minFrequency g.2.maxFrequency
        match res.1 with
        | none => ⟨-1, 0, g.2⟩
        | some tau =>
          let betterTau := yin_parabolic_interpolation yinBuffer tau buf.length
          let pitchHz := (sampleRate : ℚ) / betterTau
          if pitchHz < g.2.minFrequency ∨ g.2.maxFrequency < pitchHz then ⟨-1, 0, g.2⟩
          else ⟨pitchHz, res.2, { g.2 with lastValidPitch := pitchHz }⟩
      else ⟨-1, 0, g.2⟩

/-- The absolute-threshold search as the specification describes it, with
the window bounds computed by rounding: scan the window
`[max 2 (round (rate/maxFreq)), min (halfLen-1) (round (rate/minFreq)))`
ascending, take the first lag whose curve value is below 0.10, walk forward
to its local minimum, and report it; report nothing when no lag in the
window dips below 0.10. -/
def absolute_threshold_claim (curve : List ℚ) (bufferLength sampleRate : ℕ)
    (minFrequency maxFrequency : ℚ) : Option ℕ :=
  let halfLen := bufferLength / 2
  let minTau : ℕ := max 2 (round ((sampleRate : ℚ) / maxFrequency)).toNat
  let maxTau : ℕ := min (halfLen - 1) (round ((sampleRate : ℚ) / minFrequency)).toNat
  ((List.range' minTau (maxTau - minTau)).find? (fun t => decide (curve.getD t 0 < 1/10))).map
    (walkForward curve maxTau)

/-- The same first-dip description with the window bounds computed by
truncation toward zero, as the C cast `(int)` actually does. -/
def absolute_threshold_amended (curve : List ℚ) (bufferLength sampleRate : ℕ)
    (minFrequency maxFrequency : ℚ) : Option ℕ :=
  let halfLen := bufferLength / 2
  let minTau : ℕ := max 2 (truncToInt ((sampleRate : ℚ) / maxFrequency)).toNat
  let maxTau : ℕ := min (halfLen - 1) (truncToInt ((sampleRate : ℚ) / minFrequency)).toNat
  ((List.range' minTau (maxTau - minTau)).find? (fun t => decide (curve.getD t 0 < 1/10))).map
    (walkForward curve maxTau)

/-- Detector states reachable from the initial global state through the
public API (gate evaluations with arbitrary frame metrics, and the four
configuration calls). -/
inductive GateReachable : DetectorState → Prop
  | init : GateReachable initialState
  | gate (s : DetectorState) (rmsSq peak : ℚ) : GateReachable s →
      GateReachable (noise_gate_check s rmsSq peak).2
  | mode (s : DetectorState) (m : ℤ) : GateReachable s → GateReachable (set_tuning_mode s m)
  | freqRange (s : DetectorState) (a b : ℚ) : GateReachable s →
      GateReachable (set_frequency_range s a b)
  | freqReset (s : DetectorState) : GateReachable s → GateReachable (reset_frequency_range s)
  | noiseThresh (s : DetectorState) (t : ℚ) : GateReachable s →
      GateReachable (set_noise_threshold s t)

/-- One configuration call of the public API. -/
inductive ConfigCall
  | setTuningMode (mode : ℤ)
  | setFrequencyRange (minFreq maxFreq : ℚ)
  | resetFrequencyRange
  | setNoiseThreshold (threshold : ℚ)

/-- Apply one configuration call to the state. -/
def applyCall (s : DetectorState) : ConfigCall → DetectorState
  | ConfigCall.setTuningMode m => set_tuning_mode s m
  | ConfigCall.setFrequencyRange a b => set_frequency_range s a b
  | ConfigCall.resetFrequencyRange => reset_frequency_range s
  | ConfigCall.setNoiseThreshold t => set_noise_threshold s t

/-- Apply a sequence of configuration calls, oldest first. -/
def applyCalls (s : DetectorState) (calls : List ConfigCall) : DetectorState :=
  calls.foldl applyCall s

/-- The gate evaluation exactly as both detect functions invoke it. -/
def gateStep (s : DetectorState) (buf : List ℚ) : Bool × DetectorState :=
  noise_gate_check s (calculate_rms_sq buf buf.length) (calculate_peak buf buf.length)

/-- The normalized curve both detect functions compute for a frame. -/
def yinCurve (buf : List ℚ) : List ℚ :=
  yin_cumulative_mean_normalized_difference (yin_difference buf buf.length)

/-- The final pitch both detect functions derive from a candidate lag. -/
def refinedPitch (buf : List ℚ) (rate tau : ℕ) : ℚ :=
  (rate : ℚ) / yin_parabolic_interpolation (yinCurve buf) tau buf.length

/-- A 64-sample frame alternating 1,0,1,0,…: period 2, so the normalized
curve dips to 0 at lag 2. -/
def frameAlt : List ℚ := (List.range 64).map (fun i => if i % 2 = 0 then 1 else 0)

/-- A half-length-32 curve that is 1 everywhere except a dip of 1/20 at
lag 9: it separates the truncated window `[9, 17)` from the rounded window
`[10, 18)` at sample rate 441 and range 25–45 Hz. -/
def cexCurve : List ℚ := (List.range 32).map (fun i => if i = 9 then 1/20 else 1)

/-- An open-gate state with a narrow 4–50 Hz range: `frameAlt` yields the
candidate lag 2 and refined pitch 1000/19 ≈ 52.6 Hz, just above the range. -/
def openStateNarrow : DetectorState :=
  { gateOpenCounter := 1
    gateCloseCounter := 0
    gateIsOpen := true
    lastValidPitch := -1
    currentMode := 2
    minFrequency := 4
    maxFrequency := 50
    noiseThreshold := 3/500 }

/-- An open-gate state with a 4–60 Hz range: `frameAlt` yields the refined
pitch 1000/19 inside the range, so detection succeeds with confidence 1. -/
def openStateWide : DetectorState :=
  { gateOpenCounter := 1
    gateCloseCounter := 0
    gateIsOpen := true
    lastValidPitch := -1
    currentMode := 0
    minFrequency := 4
    maxFrequency := 60
    noiseThreshold := 1/125 }

/-- A small raw curve used to exercise the normalization characterization. -/
def rawExample : List ℚ := [4, 2, 0, 6]

/-!  Helper lemmas. -/

lemma cmndLoop_length (xs : List ℚ) (s : ℚ) (t : ℕ) : (cmndLoop xs s t).length = xs.length := by
  induction xs generalizing s t with
  | nil => rfl
  | cons x xs ih => simp [cmndLoop, ih]

lemma cmndLoop_getD (xs : List ℚ) (s0 : ℚ) (t0 k : ℕ) (hk : k < xs.length) :
    (cmndLoop xs s0 t0).getD k 0 =
      if 0 < s0 + (xs.take (k + 1)).sum then
        xs.getD k 0 * ((t0 + k : ℕ) : ℚ) / (s0 + (xs.take (k + 1)).sum)
      else 1 := by
  induction xs generalizing s0 t0 k with
  | nil => simp at hk
  | cons x xs ih =>
    cases k with
    | zero =>
      simp [cmndLoop]
    | succ k =>
      have hk' : k < xs.length := by simpa using hk
      simp only [cmndLoop, List.getD_cons_succ, ih (s0 + x) (t0 + 1) k hk',
        List.take_succ_cons, List.sum_cons]
      have harith : s0 + x + (xs.take (k + 1)).sum = s0 + (x + (xs.take (k + 1)).sum) := by ring
      have hcast : ((t0 + 1 + k : ℕ) : ℚ) = ((t0 + (k + 1) : ℕ) : ℚ) := by push_cast; ring
      rw [harith, hcast]

lemma noise_gate_check_minFrequency (s : DetectorState) (r p : ℚ) :
    (noise_gate_check s r p).2.minFrequency = s.minFrequency := by
  simp only [noise_gate_check]
  split_ifs <;> rfl

lemma noise_gate_check_maxFrequency (s : DetectorState) (r p : ℚ) :
    (noise_gate_check s r p).2.maxFrequency = s.maxFrequency := by
  simp only [noise_gate_check]
  split_ifs <;> rfl

lemma noise_gate_check_true_lastValidPitch (s : DetectorState) (r p : ℚ)
    (h : (noise_gate_check s r p).1 = true) :
    (noise_gate_check s r p).2.lastValidPitch = s.lastValidPitch := by
  simp only [noise_gate_check] at h ⊢
  split_ifs at h ⊢ <;> simp_all

lemma le_walkForwardAux (c : List ℚ) (n tau : ℕ) : tau ≤ walkForwardAux c n tau := by
  induction n generalizing tau with
  | zero => simp [walkForwardAux]
  | succ n ih =>
    simp only [walkForwardAux]
    split_ifs with h
    · exact le_trans (Nat.le_succ tau) (ih (tau + 1))
    · exact le_refl tau

lemma walkForwardAux_getD_le (c : List ℚ) (n tau : ℕ) :
    c.getD (walkForwardAux c n tau) 0 ≤ c.getD tau 0 := by
  induction n generalizing tau with
  | zero => simp [walkForwardAux]
  | succ n ih =>
    simp only [walkForwardAux]
    split_ifs with h
    · exact le_trans (ih (tau + 1)) (le_of_lt h)
    · exact le_refl _

lemma scanDipAux_eq_find (c : List ℚ) (M n tau : ℕ) :
    scanDipAux c M n tau =
      ((List.range' tau n).find? (fun t => decide (c.getD t 0 < 1/10))).map (walkForward c M) := by
  induction n generalizing tau with
  | zero => simp [scanDipAux]
  | succ n ih =>
    rw [List.range'_succ]
    by_cases h : c.getD tau 0 < 1/10
    · rw [List.find?_cons_of_pos _ (by simpa using h)]
      simp only [scanDipAux]
      rw [if_pos h]
      rfl
    · rw [List.find?_cons_of_neg _ (by simpa using h), ← ih]
      simp only [scanDipAux]
      rw [if_neg h]

lemma scanDipAux_some_ge (c : List ℚ) (M n tau u : ℕ)
    (h : scanDipAux c M n tau = some u) : tau ≤ u := by
  induction n generalizing tau with
  | zero => simp [scanDipAux] at h
  | succ n ih =>
    simp only [scanDipAux] at h
    split_ifs at h with hc
    · obtain rfl : walkForward c M tau = u := by simpa using h
      exact le_walkForwardAux c (M - tau - 1) tau
    · exact le_trans (Nat.le_succ tau) (ih (tau + 1) h)

lemma yat_def (c : List ℚ) (len rate : ℕ) (mf Mf : ℚ) :
    yin_absolute_threshold c len rate mf Mf =
      match scanDip c (min (len / 2 - 1) (truncToInt ((rate : ℚ) / mf)).toNat)
              (max 2 (truncToInt ((rate : ℚ) / Mf)).toNat) with
      | none => (none, 0)
      | some tau => if c.getD tau 0 < 1/10 then (some tau, 1 - c.getD tau 0) else (none, 0) := rfl

lemma yat_eq_none (c : List ℚ) (len rate : ℕ) (mf Mf : ℚ)
    (hs : scanDip c (min (len / 2 - 1) (truncToInt ((rate : ℚ) / mf)).toNat)
      (max 2 (truncToInt ((rate : ℚ) / Mf)).toNat) = none) :
    yin_absolute_threshold c len rate mf Mf = (none, 0) := by
  rw [yat_def, hs]

lemma yat_eq_some (c : List ℚ) (len rate : ℕ) (mf Mf : ℚ) (u : ℕ)
    (hs : scanDip c (min (len / 2 - 1) (truncToInt ((rate : ℚ) / mf)).toNat)
      (max 2 (truncToInt ((rate : ℚ) / Mf)).toNat) = some u) :
    yin_absolute_threshold c len rate mf Mf =
      if c.getD u 0 < 1/10 then (some u, 1 - c.getD u 0) else (none, 0) := by
  rw [yat_def, hs]

lemma yat_some (c : List ℚ) (len rate : ℕ) (mf Mf : ℚ) (t : ℕ)
    (h : (yin_absolute_threshold c len rate mf Mf).1 = some t) :
    (yin_absolute_threshold c len rate mf Mf).2 = 1 - c.getD t 0 ∧
      c.getD t 0 < 1/10 ∧ 2 ≤ t := by
  cases hs : scanDip c (min (len / 2 - 1) (truncToInt ((rate : ℚ) / mf)).toNat)
      (max 2 (truncToInt ((rate : ℚ) / Mf)).toNat) with
  | none => rw [yat_eq_none c len rate mf Mf hs] at h; simp at h
  | some u =>
    rw [yat_eq_some c len rate mf Mf u hs] at h ⊢
    by_cases hc : c.getD u 0 < 1/10
    · rw [if_pos hc] at h ⊢
      obtain rfl : u = t := by simpa using h
      exact ⟨rfl, hc, le_trans (le_max_left 2 _) (scanDipAux_some_ge _ _ _ _ _ hs)⟩
    · rw [if_neg hc] at h
      simp at h

lemma getD_nonneg_of_forall (l : List ℚ) (h : ∀ y ∈ l, 0 ≤ y) (k : ℕ) : 0 ≤ l.getD k 0 := by
  by_cases hk : k < l.length
  · rw [List.getD_eq_getElem l 0 hk]
    exact h _ (List.getElem_mem hk)
  · rw [List.getD_eq_default l 0 (le_of_not_lt hk)]

lemma cmndLoop_nonneg (xs : List ℚ) (s : ℚ) (t : ℕ) (hx : ∀ x ∈ xs, 0 ≤ x) :
    ∀ y ∈ cmndLoop xs s t, 0 ≤ y := by
  induction xs generalizing s t with
  | nil => simp [cmndLoop]
  | cons x xs ih =>
    intro y hy
    simp only [cmndLoop, List.mem_cons] at hy
    rcases hy with rfl | hy
    · split_ifs with h
      · exact div_nonneg (mul_nonneg (hx x (by simp)) (Nat.cast_nonneg t)) (le_of_lt h)
      · norm_num
    · exact ih (s + x) (t + 1) (fun z hz => hx z (by simp [hz])) y hy

lemma yin_difference_nonneg (buf : List ℚ) (len : ℕ) :
    ∀ y ∈ yin_difference buf len, 0 ≤ y := by
  intro y hy
  simp only [yin_difference, List.mem_map] at hy
  obtain ⟨tau, _, rfl⟩ := hy
  split_ifs
  · exact le_refl 0
  · apply List.sum_nonneg
    intro z hz
    simp only [List.mem_map] at hz
    obtain ⟨i, _, rfl⟩ := hz
    exact mul_self_nonneg _

lemma cmnd_nonneg (l : List ℚ) (h : ∀ y ∈ l, 0 ≤ y) :
    ∀ y ∈ yin_cumulative_mean_normalized_difference l, 0 ≤ y := by
  cases l with
  | nil => simp [yin_cumulative_mean_normalized_difference]
  | cons a rest =>
    intro y hy
    simp only [yin_cumulative_mean_normalized_difference, List.mem_cons] at hy
    rcases hy with rfl | hy
    · norm_num
    · exact cmndLoop_nonneg rest 0 1 (fun z hz => h z (by simp [hz])) y hy

lemma curve_getD_nonneg (buf : List ℚ) (len k : ℕ) :
    0 ≤ (yin_cumulative_mean_normalized_difference (yin_difference buf len)).getD k 0 :=
  getD_nonneg_of_forall _ (cmnd_nonneg _ (yin_difference_nonneg buf len)) k

lemma one_le_parabolic (c : List ℚ) (tau len : ℕ) (h : 2 ≤ tau) :
    1 ≤ yin_parabolic_interpolation c tau len := by
  have htau : (2 : ℚ) ≤ (tau : ℚ) := by exact_mod_cast h
  simp only [yin_parabolic_interpolation]
  split_ifs <;> linarith

lemma refinedPitch_nonneg (buf : List ℚ) (rate tau : ℕ) (h : 2 ≤ tau) :
    0 ≤ refinedPitch buf rate tau := by
  have h1 : (1 : ℚ) ≤ yin_parabolic_interpolation (yinCurve buf) tau buf.length :=
    one_le_parabolic _ tau _ h
  exact div_nonneg (Nat.cast_nonneg rate) (by linarith)

lemma detect_pitch_some_def (s : DetectorState) (buf : List ℚ) (rate : ℕ) :
    detect_pitch s (some buf) rate =
      if buf.length < 64 then ⟨-1, s⟩
      else if (gateStep s buf).1 = true then
        match (yin_absolute_threshold (yinCurve buf) buf.length rate
                (gateStep s buf).2.minFrequency (gateStep s buf).2.maxFrequency).1 with
        | none => ⟨-1, (gateStep s buf).2⟩
        | some tau =>
          if refinedPitch buf rate tau < (gateStep s buf).2.minFrequency ∨
              (gateStep s buf).2.maxFrequency < refinedPitch buf rate tau then
            ⟨-1, (gateStep s buf).2⟩
          else
            ⟨refinedPitch buf rate tau,
              { (gateStep s buf).2 with lastValidPitch := refinedPitch buf rate tau }⟩
      else ⟨-1, (gateStep s buf).2⟩ := rfl

lemma detect_conf_some_def (s : DetectorState) (buf : List ℚ) (rate : ℕ) :
    detect_pitch_with_confidence s (some buf) rate =
      if buf.length < 64 then ⟨-1, 0, s⟩
      else if (gateStep s buf).1 = true then
        match (yin_absolute_threshold (yinCurve buf) buf.length rate
                (gateStep s buf).2.minFrequency (gateStep s buf).2.maxFrequency).1 with
        | none => ⟨-1, 0, (gateStep s buf).2⟩
        | some tau =>
          if refinedPitch buf rate tau < (gateStep s buf).2.minFrequency ∨
              (gateStep s buf).2.maxFrequency < refinedPitch buf rate tau then
            ⟨-1, 0, (gateStep s buf).2⟩
          else
            ⟨refinedPitch buf rate tau,
              (yin_absolute_threshold (yinCurve buf) buf.length rate
                (gateStep s buf).2.minFrequency (gateStep s buf).2.maxFrequency).2,
              { (gateStep s buf).2 with lastValidPitch := refinedPitch buf rate tau }⟩
      else ⟨-1, 0, (gateStep s buf).2⟩ := rfl

lemma detect_pitch_short (s : DetectorState) (buf : List ℚ) (rate : ℕ)
    (h64 : buf.length < 64) : detect_pitch s (some buf) rate = ⟨-1, s⟩ := by
  rw [detect_pitch_some_def, if_pos h64]

lemma detect_pitch_gate_closed (s : DetectorState) (buf : List ℚ) (rate : ℕ)
    (h64 : ¬ buf.length < 64) (hg : ¬ (gateStep s buf).1 = true) :
    detect_pitch s (some buf) rate = ⟨-1, (gateStep s buf).2⟩ := by
  rw [detect_pitch_some_def, if_neg h64, if_neg hg]

lemma detect_pitch_no_candidate (s : DetectorState) (buf : List ℚ) (rate : ℕ)
    (h64 : ¬ buf.length < 64) (hg : (gateStep s buf).1 = true)
    (hopt : (yin_absolute_threshold (yinCurve buf) buf.length rate
        (gateStep s buf).2.minFrequency (gateStep s buf).2.maxFrequency).1 = none) :
    detect_pitch s (some buf) rate = ⟨-1, (gateStep s buf).2⟩ := by
  rw [detect_pitch_some_def, if_neg h64, if_pos hg, hopt]

lemma detect_pitch_out_of_range (s : DetectorState) (buf : List ℚ) (rate tau : ℕ)
    (h64 : ¬ buf.length < 64) (hg : (gateStep s buf).1 = true)
    (hopt : (yin_absolute_threshold (yinCurve buf) buf.length rate
        (gateStep s buf).2.minFrequency (gateStep s buf).2.maxFrequency).1 = some tau)
    (hr : refinedPitch buf rate tau < (gateStep s buf).2.minFrequency ∨
        (gateStep s buf).2.maxFrequency < refinedPitch buf rate tau) :
    detect_pitch s (some buf) rate = ⟨-1, (gateStep s buf).2⟩ := by
  rw [detect_pitch_some_def, if_neg h64, if_pos hg, hopt]
  exact if_pos hr

lemma detect_pitch_success (s : DetectorState) (buf : List ℚ) (rate tau : ℕ)
    (h64 : ¬ buf.length < 64) (hg : (gateStep s buf).1 = true)
    (hopt : (yin_absolute_threshold (yinCurve buf) buf.length rate
        (gateStep s buf).2.minFrequency (gateStep s buf).2.maxFrequency).1 = some tau)
    (hr : ¬ (refinedPitch buf rate tau < (gateStep s buf).2.minFrequency ∨
        (gateStep s buf).2.maxFrequency < refinedPitch buf rate tau)) :
    detect_pitch s (some buf) rate =
      ⟨refinedPitch buf rate tau,
        { (gateStep s buf).2 with lastValidPitch := refinedPitch buf rate tau }⟩ := by
  rw [detect_pitch_some_def, if_neg h64, if_pos hg, hopt]
  exact if_neg hr

lemma detect_conf_short (s : DetectorState) (buf : List ℚ) (rate : ℕ)
    (h64 : buf.length < 64) : detect_pitch_with_confidence s (some buf) rate = ⟨-1, 0, s⟩ := by
  rw [detect_conf_some_def, if_pos h64]

lemma detect_conf_gate_closed (s : DetectorState) (buf : List ℚ) (rate : ℕ)
    (h64 : ¬ buf.length < 64) (hg : ¬ (gateStep s buf).1 = true) :
    detect_pitch_with_confidence s (some buf) rate = ⟨-1, 0, (gateStep s buf).2⟩ := by
  rw [detect_conf_some_def, if_neg h64, if_neg hg]

lemma detect_conf_no_candidate (s : DetectorState) (buf : List ℚ) (rate : ℕ)
    (h64 : ¬ buf.length < 64) (hg : (gateStep s buf).1 = true)
    (hopt : (yin_absolute_threshold (yinCurve buf) buf.length rate
        (gateStep s buf).2.minFrequency (gateStep s buf).2.maxFrequency).1 = none) :
    detect_pitch_with_confidence s (some buf) rate = ⟨-1, 0, (gateStep s buf).2⟩ := by
  rw [detect_conf_some_def, if_neg h64, if_pos hg, hopt]

lemma detect_conf_out_of_range (s : DetectorState) (buf : List ℚ) (rate tau : ℕ)
    (h64 : ¬ buf.length < 64) (hg : (gateStep s buf).1 = true)
    (hopt : (yin_absolute_threshold (yinCurve buf) buf.length rate
        (gateStep s buf).2.minFrequency (gateStep s buf).2.maxFrequency).1 = some tau)
    (hr : refinedPitch buf rate tau < (gateStep s buf).2.minFrequency ∨
        (gateStep s buf).2.maxFrequency < refinedPitch buf rate tau) :
    detect_pitch_with_confidence s (some buf) rate = ⟨-1, 0, (gateStep s buf).2⟩ := by
  rw [detect_conf_some_def, if_neg h64, if_pos hg, hopt]
  exact if_pos hr

lemma detect_conf_success (s : DetectorState) (buf : List ℚ) (rate tau : ℕ)
    (h64 : ¬ buf.length < 64) (hg : (gateStep s buf).1 = true)
    (hopt : (yin_absolute_threshold (yinCurve buf) buf.length rate
        (gateStep s buf).2.minFrequency (gateStep s buf).2.maxFrequency).1 = some tau)
    (hr : ¬ (refinedPitch buf rate tau < (gateStep s buf).2.minFrequency ∨
        (gateStep s buf).2.maxFrequency < refinedPitch buf rate tau)) :
    detect_pitch_with_confidence s (some buf) rate =
      ⟨refinedPitch buf rate tau,
        (yin_absolute_threshold (yinCurve buf) buf.length rate
          (gateStep s buf).2.minFrequency (gateStep s buf).2.maxFrequency).2,
        { (gateStep s buf).2 with lastValidPitch := refinedPitch buf rate tau }⟩ := by
  rw [detect_conf_some_def, if_neg h64, if_pos hg, hopt]
  exact if_neg hr

lemma noise_gate_check_spec (s : DetectorState) (rmsSq peak : ℚ) :
    noise_gate_check s rmsSq peak =
      if qualifies s rmsSq peak then
        if 2 ≤ s.gateOpenCounter + 1 then
          (true,
            { s with
                gateCloseCounter := 0
                gateOpenCounter := s.gateOpenCounter + 1
                gateIsOpen := true })
        else
          (s.gateIsOpen,
            { s with
                gateCloseCounter := 0
                gateOpenCounter := s.gateOpenCounter + 1 })
      else
        if 5 ≤ s.gateCloseCounter + 1 then
          (false,
            { s with
                gateOpenCounter := 0
                gateCloseCounter := s.gateCloseCounter + 1
                gateIsOpen := false
                lastValidPitch := -1 })
        else
          (s.gateIsOpen,
            { s with
                gateOpenCounter := 0
                gateCloseCounter := s.gateCloseCounter + 1 }) := by
  dsimp only [noise_gate_check]
  split_ifs <;> rfl

lemma ata_def (c : List ℚ) (len rate : ℕ) (mf Mf : ℚ) :
    absolute_threshold_amended c len rate mf Mf =
      ((List.range' (max 2 (truncToInt ((rate : ℚ) / Mf)).toNat)
          (min (len / 2 - 1) (truncToInt ((rate : ℚ) / mf)).toNat -
            max 2 (truncToInt ((rate : ℚ) / Mf)).toNat)).find?
        (fun t => decide (c.getD t 0 < 1/10))).map
        (walkForward c (min (len / 2 - 1) (truncToInt ((rate : ℚ) / mf)).toNat)) := rfl

/-!  Claim theorems. -/

/-- C1 (amended): the absolute-threshold search scans lags ascending over
the window `[minTau, maxTau)` with `minTau = max 2 (trunc (rate/maxFreq))`
and `maxTau = min (halfLen-1) (trunc (rate/minFreq))` — truncation toward
zero, not rounding — and at the first lag whose normalized curve value is
below 0.10 it walks forward while the next value is strictly smaller,
records that local minimum as the single best candidate, and stops; if no
lag in the window goes below 0.10 it reports no candidate. -/
theorem claim_C1_first_dip_search (curve : List ℚ) (bufferLength sampleRate : ℕ)
    (minFrequency maxFrequency : ℚ) :
    (yin_absolute_threshold curve bufferLength sampleRate minFrequency maxFrequency).1 =
      absolute_threshold_amended curve bufferLength sampleRate minFrequency maxFrequency := by
  cases hf : (List.range' (max 2 (truncToInt ((sampleRate : ℚ) / maxFrequency)).toNat)
      (min (bufferLength / 2 - 1) (truncToInt ((sampleRate : ℚ) / minFrequency)).toNat -
        max 2 (truncToInt ((sampleRate : ℚ) / maxFrequency)).toNat)).find?
      (fun t => decide (curve.getD t 0 < 1/10)) with
  | none =>
    have hs : scanDip curve
        (min (bufferLength / 2 - 1) (truncToInt ((sampleRate : ℚ) / minFrequency)).toNat)
        (max 2 (truncToInt ((sampleRate : ℚ) / maxFrequency)).toNat) = none := by
      rw [scanDip, scanDipAux_eq_find, hf]
      rfl
    rw [yat_eq_none _ _ _ _ _ hs, ata_def, hf]
    rfl
  | some u =>
    have hs : scanDip curve
        (min (bufferLength / 2 - 1) (truncToInt ((sampleRate : ℚ) / minFrequency)).toNat)
        (max 2 (truncToInt ((sampleRate : ℚ) / maxFrequency)).toNat) =
        some (walkForward curve
          (min (bufferLength / 2 - 1) (truncToInt ((sampleRate : ℚ) / minFrequency)).toNat) u) := by
      rw [scanDip, scanDipAux_eq_find, hf]
      rfl
    have hu : curve.getD u 0 < 1/10 := by simpa using List.find?_some hf
    have hw : curve.getD (walkForward curve
        (min (bufferLength / 2 - 1) (truncToInt ((sampleRate : ℚ) / minFrequency)).toNat) u) 0 ≤
        curve.getD u 0 := walkForwardAux_getD_le curve _ u
    rw [yat_eq_some _ _ _ _ _ _ hs, if_pos (lt_of_le_of_lt hw hu), ata_def, hf]
    rfl

/-- C1 (counterexample to the claim as stated): at sample rate 441 with
range 25–45 Hz the code truncates 441/45 = 9.8 to window start 9 and finds
the dip at lag 9, while the claimed rounded window `[10, 18)` contains no
sub-threshold value, so the rounded description reports no candidate. -/
theorem claim_C1_counterexample :
    (yin_absolute_threshold cexCurve 64 441 25 45).1 = some 9 ∧
    absolute_threshold_claim cexCurve 64 441 25 45 = none := by
  with_unfolding_all decide

/-- C2: for every reachable gate state, a single qualifying frame (RMS
above the threshold and peak above twice the threshold) arriving while the
gate is closed with no qualifying run in progress never opens it, and
opening on a qualifying frame from a closed state happens exactly when the
consecutive-qualifying count reaches 2; symmetrically a single
non-qualifying frame arriving while the gate is open with no
non-qualifying run in progress never closes it, closing happens exactly
when the consecutive-non-qualifying count reaches 5, and the closing
transition clears lastValidPitch to the "none" sentinel -1. -/
theorem claim_C2_gate_hysteresis (s : DetectorState) (hreach : GateReachable s)
    (rmsSq peak : ℚ) :
    (s.gateIsOpen = false → s.gateOpenCounter = 0 → qualifies s rmsSq peak →
      (noise_gate_check s rmsSq peak).2.gateIsOpen = false) ∧
    (qualifies s rmsSq peak →
      (noise_gate_check s rmsSq peak).2.gateOpenCounter = s.gateOpenCounter + 1 ∧
      (s.gateIsOpen = false →
        ((noise_gate_check s rmsSq peak).2.gateIsOpen = true ↔ 2 ≤ s.gateOpenCounter + 1))) ∧
    (s.gateIsOpen = true → s.gateCloseCounter = 0 → ¬ qualifies s rmsSq peak →
      (noise_gate_check s rmsSq peak).2.gateIsOpen = true) ∧
    (¬ qualifies s rmsSq peak →
      (noise_gate_check s rmsSq peak).2.gateCloseCounter = s.gateCloseCounter + 1 ∧
      (s.gateIsOpen = true →
        ((noise_gate_check s rmsSq peak).2.gateIsOpen = false ↔ 5 ≤ s.gateCloseCounter + 1))) ∧
    (s.gateIsOpen = true → (noise_gate_check s rmsSq peak).2.gateIsOpen = false →
      (noise_gate_check s rmsSq peak).2.lastValidPitch = -1) := by
  rw [noise_gate_check_spec]
  by_cases hq : qualifies s rmsSq peak
  · rw [if_pos hq]
    by_cases h2 : 2 ≤ s.gateOpenCounter + 1
    · rw [if_pos h2]
      exact ⟨fun _ hzero _ => absurd h2 (by omega),
        fun _ => ⟨rfl, fun _ => by simpa using h2⟩,
        fun _ _ hq' => absurd hq hq',
        fun hq' => absurd hq hq',
        fun _ hfalse => by simp at hfalse⟩
    · rw [if_neg h2]
      exact ⟨fun hclosed _ _ => hclosed,
        fun _ => ⟨rfl, fun hclosed => by simp [hclosed, h2]⟩,
        fun _ _ hq' => absurd hq hq',
        fun hq' => absurd hq hq',
        fun hopen hfalse => by rw [hopen] at hfalse; simp at hfalse⟩
  · rw [if_neg hq]
    by_cases h5 : 5 ≤ s.gateCloseCounter + 1
    · rw [if_pos h5]
      exact ⟨fun _ _ hq' => absurd hq' hq,
        fun hq' => absurd hq' hq,
        fun _ hzero _ => absurd h5 (by omega),
        fun _ => ⟨rfl, fun _ => by simpa using h5⟩,
        fun _ _ => rfl⟩
    · rw [if_neg h5]
      exact ⟨fun _ _ hq' => absurd hq' hq,
        fun hq' => absurd hq' hq,
        fun hopen _ _ => hopen,
        fun _ => ⟨rfl, fun hopen => by simp [hopen, h5]⟩,
        fun hopen hfalse => by rw [hopen] at hfalse; simp at hfalse⟩

/-- C2 witness: from the initial closed state a single qualifying frame
leaves the gate closed, and after two qualifying frames (the gate now
open) a single non-qualifying frame leaves it open. -/
theorem claim_C2_witness :
    (noise_gate_check initialState 1 1).2.gateIsOpen = false ∧
    (noise_gate_check (noise_gate_check (noise_gate_check initialState 1 1).2 1 1).2 0 0).2.gateIsOpen
      = true :=
  ⟨(claim_C2_gate_hysteresis initialState GateReachable.init 1 1).1 rfl rfl
      (by with_unfolding_all decide),
   (claim_C2_gate_hysteresis (noise_gate_check (noise_gate_check initialState 1 1).2 1 1).2
      (GateReachable.gate _ 1 1 (GateReachable.gate _ 1 1 GateReachable.init)) 0 0).2.2.1
      (by with_unfolding_all decide) (by with_unfolding_all decide)
      (by with_unfolding_all decide)⟩

/-- C3: after cumulative-mean normalization of a curve of length at least
1, entry 0 equals 1, and every entry `tau ≥ 1` equals
`raw[tau] * tau / S` when the running sum `S` of the raw entries `1..tau`
is positive and 1 otherwise, so the division is only ever performed with a
positive divisor. -/
theorem claim_C3_normalization (raw : List ℚ) (h : 1 ≤ raw.length) :
    (yin_cumulative_mean_normalized_difference raw).getD 0 0 = 1 ∧
    ∀ tau, 1 ≤ tau → tau < raw.length →
      (yin_cumulative_mean_normalized_difference raw).getD tau 0 =
        if 0 < ((raw.drop 1).take tau).sum then
          raw.getD tau 0 * (tau : ℚ) / ((raw.drop 1).take tau).sum
        else 1 := by
  cases raw with
  | nil => simp at h
  | cons x rest =>
    refine ⟨rfl, ?_⟩
    intro tau h1 h2
    obtain ⟨k, rfl⟩ : ∃ k, tau = k + 1 := ⟨tau - 1, by omega⟩
    have hk : k < rest.length := by simpa using h2
    show (1 :: cmndLoop rest 0 1).getD (k + 1) 0 = _
    rw [List.getD_cons_succ, cmndLoop_getD rest 0 1 k hk]
    have hdrop : (x :: rest).drop 1 = rest := rfl
    have hget : (x :: rest).getD (k + 1) 0 = rest.getD k 0 := List.getD_cons_succ
    rw [hdrop, hget, zero_add, Nat.add_comm 1 k]

/-- C3 witness: the characterization evaluated on the concrete raw curve
`[4, 2, 0, 6]` at index 2. -/
theorem claim_C3_witness :
    (yin_cumulative_mean_normalized_difference rawExample).getD 0 0 = 1 ∧
    (yin_cumulative_mean_normalized_difference rawExample).getD 2 0 =
      (if 0 < ((rawExample.drop 1).take 2).sum then
        rawExample.getD 2 0 * ((2 : ℕ) : ℚ) / ((rawExample.drop 1).take 2).sum
      else 1) :=
  ⟨(claim_C3_normalization rawExample (by decide)).1,
   (claim_C3_normalization rawExample (by decide)).2 2 (by decide) (by decide)⟩

/-- C4: whenever the frame is analyzable, the gate opens, and the threshold
search yields a candidate lag, but the refined pitch `rate / refinedTau`
falls outside the configured `[minFrequency, maxFrequency]` range,
`detect_pitch` returns the "no pitch" sentinel -1 and `lastValidPitch` is
left unchanged. -/
theorem claim_C4_out_of_range_rejected (s : DetectorState) (buf : List ℚ) (rate tau : ℕ)
    (h64 : 64 ≤ buf.length)
    (hg : (gateStep s buf).1 = true)
    (hopt : (yin_absolute_threshold (yinCurve buf) buf.length rate
        s.minFrequency s.maxFrequency).1 = some tau)
    (hr : refinedPitch buf rate tau < s.minFrequency ∨
        s.maxFrequency < refinedPitch buf rate tau) :
    (detect_pitch s (some buf) rate).pitch = -1 ∧
    (detect_pitch s (some buf) rate).state.lastValidPitch = s.lastValidPitch := by
  have hmin : (gateStep s buf).2.minFrequency = s.minFrequency :=
    noise_gate_check_minFrequency s _ _
  have hmax : (gateStep s buf).2.maxFrequency = s.maxFrequency :=
    noise_gate_check_maxFrequency s _ _
  have h64' : ¬ buf.length < 64 := by omega
  have hopt' : (yin_absolute_threshold (yinCurve buf) buf.length rate
      (gateStep s buf).2.minFrequency (gateStep s buf).2.maxFrequency).1 = some tau := by
    rw [hmin, hmax]; exact hopt
  have hr' : refinedPitch buf rate tau < (gateStep s buf).2.minFrequency ∨
      (gateStep s buf).2.maxFrequency < refinedPitch buf rate tau := by
    rw [hmin, hmax]; exact hr
  rw [detect_pitch_out_of_range s buf rate tau h64' hg hopt' hr']
  exact ⟨rfl, noise_gate_check_true_lastValidPitch s _ _ hg⟩

/-- C4 witness: the alternating frame at rate 100 in an open-gate state
with range 4–50 Hz yields candidate lag 2 and refined pitch 1000/19 > 50,
so detection reports no pitch and keeps lastValidPitch. -/
theorem claim_C4_witness :
    (detect_pitch openStateNarrow (some frameAlt) 100).pitch = -1 ∧
    (detect_pitch openStateNarrow (some frameAlt) 100).state.lastValidPitch =
      openStateNarrow.lastValidPitch :=
  claim_C4_out_of_range_rejected openStateNarrow frameAlt 100 2 (by decide)
    (by with_unfolding_all decide) (by with_unfolding_all decide)
    (by with_unfolding_all decide)

/-- C5: a null frame, or a frame shorter than 64 samples, always yields the
"no pitch" sentinel -1 from both detect entry points and leaves the state
untouched, regardless of frame content and of the configured mode, range
and threshold. -/
theorem claim_C5_short_frame (s : DetectorState) (buf : List ℚ) (rate : ℕ) :
    detect_pitch s none rate = ⟨-1, s⟩ ∧
    detect_pitch_with_confidence s none rate = ⟨-1, 0, s⟩ ∧
    (buf.length < 64 →
      detect_pitch s (some buf) rate = ⟨-1, s⟩ ∧
      detect_pitch_with_confidence s (some buf) rate = ⟨-1, 0, s⟩) :=
  ⟨rfl, rfl, fun h => ⟨detect_pitch_short s buf rate h, detect_conf_short s buf rate h⟩⟩

/-- C5 witness: a three-sample frame is rejected by both entry points. -/
theorem claim_C5_witness :
    detect_pitch initialState (some [1, 1, 1]) 48000 = ⟨-1, initialState⟩ ∧
    detect_pitch_with_confidence initialState (some [1, 1, 1]) 48000 = ⟨-1, 0, initialState⟩ :=
  (claim_C5_short_frame initialState [1, 1, 1] 48000).2.2 (by decide)

/-- C6: a `set_frequency_range` call whose arguments do not satisfy
`0 < min < max` leaves both bounds (and the whole state) unchanged, and a
`set_noise_threshold` call whose argument does not satisfy `0 < value < 1`
leaves the threshold (and the whole state) unchanged; both calls return
normally, signaling no error. -/
theorem claim_C6_invalid_config_noop (s : DetectorState) (minFreq maxFreq threshold : ℚ) :
    (¬ (0 < minFreq ∧ minFreq < maxFreq) → set_frequency_range s minFreq maxFreq = s) ∧
    (¬ (0 < threshold ∧ threshold < 1) → set_noise_threshold s threshold = s) :=
  ⟨fun h => if_neg h, fun h => if_neg h⟩

/-- C6 witness: `set_frequency_range 10 5` and `set_noise_threshold (-1)`
are no-ops on the initial state. -/
theorem claim_C6_witness :
    set_frequency_range initialState 10 5 = initialState ∧
    set_noise_threshold initialState (-1) = initialState :=
  ⟨(claim_C6_invalid_config_noop initialState 10 5 (-1)).1 (by with_unfolding_all decide),
   (claim_C6_invalid_config_noop initialState 10 5 (-1)).2 (by with_unfolding_all decide)⟩

/-- C7: `set_tuning_mode` sets the noise threshold from the fixed table
(guitar mode 1 ↦ 0.010, piano mode 2 ↦ 0.006, chromatic mode 0 and every
other argument ↦ 0.008), resets the gate (closed, both counters zero,
lastValidPitch cleared to the sentinel -1), and leaves the frequency range
unchanged. -/
theorem claim_C7_set_tuning_mode (s : DetectorState) (mode : ℤ) :
    (set_tuning_mode s mode).noiseThreshold =
        (if mode = 1 then 1/100 else if mode = 2 then 3/500 else 1/125) ∧
    (set_tuning_mode s mode).gateIsOpen = false ∧
    (set_tuning_mode s mode).gateOpenCounter = 0 ∧
    (set_tuning_mode s mode).gateCloseCounter = 0 ∧
    (set_tuning_mode s mode).lastValidPitch = -1 ∧
    (set_tuning_mode s mode).minFrequency = s.minFrequency ∧
    (set_tuning_mode s mode).maxFrequency = s.maxFrequency :=
  ⟨rfl, rfl, rfl, rfl, rfl, rfl, rfl⟩

/-- C8: after any sequence of configuration calls, one
`reset_frequency_range` call restores exactly the default bounds 25 Hz and
4500 Hz. -/
theorem claim_C8_reset_frequency_range (s : DetectorState) (calls : List ConfigCall) :
    (reset_frequency_range (applyCalls s calls)).minFrequency = 25 ∧
    (reset_frequency_range (applyCalls s calls)).maxFrequency = 4500 :=
  ⟨rfl, rfl⟩

/-- C9: `detect_pitch_with_confidence` writes a confidence equal to
`1 - curve[bestTau]`, lying in `[0, 1]`, exactly when a candidate lag is
found and the refined pitch passes the range check; in every other outcome
(null or short frame, closed gate, no candidate, out-of-range pitch) the
written confidence is exactly 0. -/
theorem claim_C9_confidence (s : DetectorState) (frame : Option (List ℚ)) (rate : ℕ) :
    ((detect_pitch_with_confidence s frame rate).pitch = -1 →
      (detect_pitch_with_confidence s frame rate).confidence = 0) ∧
    ((detect_pitch_with_confidence s frame rate).pitch ≠ -1 →
      ∃ buf tau, frame = some buf ∧
        (yin_absolute_threshold (yinCurve buf) buf.length rate
            s.minFrequency s.maxFrequency).1 = some tau ∧
        (detect_pitch_with_confidence s frame rate).confidence =
          1 - (yinCurve buf).getD tau 0 ∧
        0 ≤ (detect_pitch_with_confidence s frame rate).confidence ∧
        (detect_pitch_with_confidence s frame rate).confidence ≤ 1) := by
  cases frame with
  | none => exact ⟨fun _ => rfl, fun h => absurd rfl h⟩
  | some buf =>
    by_cases h64 : buf.length < 64
    · rw [detect_conf_short s buf rate h64]
      exact ⟨fun _ => rfl, fun h => absurd rfl h⟩
    · by_cases hg : (gateStep s buf).1 = true
      · cases hopt : (yin_absolute_threshold (yinCurve buf) buf.length rate
            (gateStep s buf).2.minFrequency (gateStep s buf).2.maxFrequency).1 with
        | none =>
          rw [detect_conf_no_candidate s buf rate h64 hg hopt]
          exact ⟨fun _ => rfl, fun h => absurd rfl h⟩
        | some tau =>
          by_cases hr : refinedPitch buf rate tau < (gateStep s buf).2.minFrequency ∨
              (gateStep s buf).2.maxFrequency < refinedPitch buf rate tau
          · rw [detect_conf_out_of_range s buf rate tau h64 hg hopt hr]
            exact ⟨fun _ => rfl, fun h => absurd rfl h⟩
          · rw [detect_conf_success s buf rate tau h64 hg hopt hr]
            obtain ⟨hconf, hlt, h2tau⟩ := yat_some _ _ _ _ _ _ hopt
            have hnn : 0 ≤ refinedPitch buf rate tau := refinedPitch_nonneg buf rate tau h2tau
            have hcnn : 0 ≤ (yinCurve buf).getD tau 0 := curve_getD_nonneg buf buf.length tau
            constructor
            · intro hpitch
              have : refinedPitch buf rate tau = -1 := hpitch
              linarith
            · intro _
              refine ⟨buf, tau, rfl, ?_, ?_, ?_, ?_⟩
              · rw [← noise_gate_check_minFrequency s (calculate_rms_sq buf buf.length)
                    (calculate_peak buf buf.length),
                  ← noise_gate_check_maxFrequency s (calculate_rms_sq buf buf.length)
                    (calculate_peak buf buf.length)]
                exact hopt
              · exact hconf
              · have hc : (yin_absolute_threshold (yinCurve buf) buf.length rate
                    (gateStep s buf).2.minFrequency (gateStep s buf).2.maxFrequency).2 =
                    1 - (yinCurve buf).getD tau 0 := hconf
                show 0 ≤ (yin_absolute_threshold (yinCurve buf) buf.length rate
                    (gateStep s buf).2.minFrequency (gateStep s buf).2.maxFrequency).2
                rw [hc]
                linarith
              · have hc : (yin_absolute_threshold (yinCurve buf) buf.length rate
                    (gateStep s buf).2.minFrequency (gateStep s buf).2.maxFrequency).2 =
                    1 - (yinCurve buf).getD tau 0 := hconf
                show (yin_absolute_threshold (yinCurve buf) buf.length rate
                    (gateStep s buf).2.minFrequency (gateStep s buf).2.maxFrequency).2 ≤ 1
                rw [hc]
                linarith
      · rw [detect_conf_gate_closed s buf rate h64 hg]
        exact ⟨fun _ => rfl, fun h => absurd rfl h⟩

/-- C9 witness: the alternating frame at rate 100 in an open-gate state
with range 4–60 Hz succeeds with pitch 1000/19, so the theorem yields the
candidate lag and the confidence characterization. -/
theorem claim_C9_witness :
    ∃ buf tau, (some frameAlt : Option (List ℚ)) = some buf ∧
      (yin_absolute_threshold (yinCurve buf) buf.length 100
          openStateWide.minFrequency openStateWide.maxFrequency).1 = some tau ∧
      (detect_pitch_with_confidence openStateWide (some frameAlt) 100).confidence =
        1 - (yinCurve buf).getD tau 0 ∧
      0 ≤ (detect_pitch_with_confidence openStateWide (some frameAlt) 100).confidence ∧
      (detect_pitch_with_confidence openStateWide (some frameAlt) 100).confidence ≤ 1 :=
  (claim_C9_confidence openStateWide (some frameAlt) 100).2 (by with_unfolding_all decide)

/-- C10: from any identical starting state, `detect_pitch` and
`detect_pitch_with_confidence` return the same pitch and leave the
detector state identical; the extended entry point differs only in
additionally producing the confidence value. -/
theorem claim_C10_detect_equiv (s : DetectorState) (frame : Option (List ℚ)) (rate : ℕ) :
    (detect_pitch s frame rate).pitch = (detect_pitch_with_confidence s frame rate).pitch ∧
    (detect_pitch s frame rate).state = (detect_pitch_with_confidence s frame rate).state := by
  cases frame with
  | none => exact ⟨rfl, rfl⟩
  | some buf =>
    by_cases h64 : buf.length < 64
    · rw [detect_pitch_short s buf rate h64, detect_conf_short s buf rate h64]
      exact ⟨rfl, rfl⟩
    · by_cases hg : (gateStep s buf).1 = true
      · cases hopt : (yin_absolute_threshold (yinCurve buf) buf.length rate
            (gateStep s buf).2.minFrequency (gateStep s buf).2.maxFrequency).1 with
        | none =>
          rw [detect_pitch_no_candidate s buf rate h64 hg hopt,
            detect_conf_no_candidate s buf rate h64 hg hopt]
          exact ⟨rfl, rfl⟩
        | some tau =>
          by_cases hr : refinedPitch buf rate tau < (gateStep s buf).2.minFrequency ∨
              (gateStep s buf).2.maxFrequency < refinedPitch buf rate tau
          · rw [detect_pitch_out_of_range s buf rate tau h64 hg hopt hr,
              detect_conf_out_of_range s buf rate tau h64 hg hopt hr]
            exact ⟨rfl, rfl⟩
          · rw [detect_pitch_success s buf rate tau h64 hg hopt hr,
              detect_conf_success s buf rate tau h64 hg hopt hr]
            exact ⟨rfl, rfl⟩
      · rw [detect_pitch_gate_closed s buf rate h64 hg,
          detect_conf_gate_closed s buf rate h64 hg]
        exact ⟨rfl, rfl⟩

end Notefy
